import Mathlib

/-!
Verification development for the catsim CAT-simulation module
(`catsim/cat/simulate.py`).  The Python source is shallowly embedded below:
item-bank rows become the `Item` structure (the fourth field is the exposure
column that `simCAT` appends to the input matrix), the IRT model provider
(`catsim.cat.irt.inf`, `catsim.cat.irt.tpm`) and the scipy `minimize` call are
external collaborators and therefore appear as function parameters bundled in
`Provider`, and every draw from `numpy.random` is reified as an explicit input
(the examinees' true abilities, the initial estimate, the per-administration
uniform response draw, and the stream of `randint` draws consumed by the
exposure-control substitution loop).  Machine floats are modelled as exact
rationals; `math.sqrt` in `rmse` is `Real.sqrt`.  Fallible paths of the Python
code (indexing with `None`, `max` of an empty list, an sklearn length-mismatch
error, a substitution loop that never finds a valid item) are modelled with
`Option`, `none` standing for the run aborting with an exception or diverging.
-/

namespace CatSim

/-- Item row of the bank matrix after `simCAT` appends the exposure column:
discrimination `a`, difficulty `b`, guessing `c` (columns 0..2 of the input
matrix) and the exposure count (column 3, added by `simCAT` and incremented on
each administration). -/
structure Item where
  a : ℚ
  b : ℚ
  c : ℚ
  exposure : ℚ
deriving DecidableEq

/-- External collaborators of the simulation core: the IRT model provider's
Fisher-information function `catsim.cat.irt.inf`, its three-parameter-logistic
probability `catsim.cat.irt.tpm` (each taking ability, a, b, c), and the
maximum-likelihood re-estimation performed by `scipy.optimize.minimize` on
`catsim.cat.irt.negativelogLik` (taking the seed estimate, the response vector
and the administered item rows, and returning the optimizer's iterate). -/
structure Provider where
  infF : ℚ → ℚ → ℚ → ℚ → ℚ
  tpmF : ℚ → ℚ → ℚ → ℚ → ℚ
  mle : ℚ → List Bool → List Item → ℚ

/-- Embedding of the item scan of `simCAT` (lines 47-55): iterate over the bank
with a running index `counter`, and whenever the item is not yet administered
and its information exceeds `maxInf`, record `counter` as the selection.  The
source initialises `max_inf = 0` and, notably, never updates it inside the
loop; the `maxInf` parameter is threaded through unchanged to mirror that
literally. -/
def scanAux (infF : ℚ → ℚ → ℚ → ℚ → ℚ) (θ : ℚ) (administered : List ℕ) :
    Option ℕ → ℚ → ℕ → List Item → Option ℕ
  | sel, _, _, [] => sel
  | sel, maxInf, counter, it :: rest =>
    if counter ∉ administered ∧ infF θ it.a it.b it.c > maxInf then
      scanAux infF θ administered (some counter) maxInf (counter + 1) rest
    else
      scanAux infF θ administered sel maxInf (counter + 1) rest

/-- Result of the item scan: `selected_item` after the `for counter, i in
enumerate(items)` loop, starting from `selected_item = None`, `max_inf = 0`. -/
def scanSel (infF : ℚ → ℚ → ℚ → ℚ → ℚ) (θ : ℚ) (administered : List ℕ)
    (items : List Item) : Option ℕ :=
  scanAux infF θ administered none 0 0 items

/-- Exposure count consulted by the check on lines 62-63 of the source:
`items[counter, 3]` where `counter` is the scan loop's variable, which after
the loop holds the index of the LAST bank row.  (`getD 0` is never reached for
a nonempty bank; an empty bank is already rejected in `selectItem`.) -/
def lastExposure (items : List Item) : ℚ :=
  ((items.getLast?).map Item.exposure).getD 0

/-- Embedding of one selector invocation (lines 47-74).  After the scan, the
source tests `items[counter, 3] == 0 or (items[counter, 3] != 0 and bank_size /
items[counter, 3] >= r_max)`; when the test holds it enters the cluster
substitution loop (repeatedly drawing `random.randint(0, bank_size)` until the
draw is in the step-1 pick's cluster and not yet administered), otherwise the
scan result is used directly.  `subDraws` reifies the `randint` stream, so all
entries are below the bank size by construction of the sampler; an exhausted
stream models the loop never terminating.  `none` models the Python run dying
with a `TypeError` (`clusters[None]`) or an unbounded loop.  The cluster map is
assumed parallel to the bank (§3 of the spec: every item index has exactly one
cluster assignment). -/
def selectItem (infF : ℚ → ℚ → ℚ → ℚ → ℚ) (θ : ℚ) (items : List Item)
    (clusters : List ℕ) (administered : List ℕ) (rMax : ℚ)
    (subDraws : List ℕ) : Option ℕ :=
  if items.isEmpty then none
  else
    let sel := scanSel infF θ administered items
    let e := lastExposure items
    if e = 0 ∨ (e ≠ 0 ∧ (items.length : ℚ) / e ≥ rMax) then
      match sel with
      | none => none
      | some s =>
        match clusters.get? s with
        | none => none
        | some cl =>
          subDraws.find? (fun r =>
            decide (r < items.length ∧ clusters.get? r = some cl ∧
              r ∉ administered))
    else sel

/-- Embedding of `items[selected_item][3] += 1` (line 90): bump the exposure
count of the row at the given index, leaving every other row unchanged. -/
def incExposure : List Item → ℕ → List Item
  | [], _ => []
  | it :: rest, 0 => ⟨it.a, it.b, it.c, it.exposure + 1⟩ :: rest
  | it :: rest, j + 1 => it :: incExposure rest j

/-- Embedding of `all(response_vector[0] == response for response in
response_vector)` (line 95): vacuously true on the empty list, otherwise every
entry equals the head. -/
def uniformResponses : List Bool → Bool
  | [] => true
  | h :: t => (h :: t).all (fun r => r == h)

/-- Embedding of `dodd` (lines 125-152): `b_max`/`b_min` are Python
`max`/`min` over the whole difficulty column (all bank items), and the update
moves the estimate halfway towards the relevant bound.  `none` models the
`ValueError` Python `max` raises on an empty bank. -/
def dodd (θ : ℚ) (items : List Item) (acertou : Bool) : Option ℚ :=
  match items.map Item.b with
  | [] => none
  | b0 :: bs =>
    some (if acertou then θ + (bs.foldl max b0 - θ) / 2
          else θ - (θ - bs.foldl min b0) / 2)

/-- Modelled from the spec (§4.1 step 1), for comparison with the source's
scan: among the items not already administered, the index with the strictly
greatest Fisher information at the current estimate, the first index in scan
order winning ties (an item only qualifies when its information is strictly
positive, matching the scan's `max_inf = 0` start). -/
def maxInfoPickSpecAux (infF : ℚ → ℚ → ℚ → ℚ → ℚ) (θ : ℚ)
    (administered : List ℕ) :
    Option ℕ → ℚ → ℕ → List Item → Option ℕ
  | sel, _, _, [] => sel
  | sel, maxInf, counter, it :: rest =>
    if counter ∉ administered ∧ infF θ it.a it.b it.c > maxInf then
      maxInfoPickSpecAux infF θ administered (some counter)
        (infF θ it.a it.b it.c) (counter + 1) rest
    else
      maxInfoPickSpecAux infF θ administered sel maxInf (counter + 1) rest

/-- Spec-side step-1 pick: the same loop as the source's scan, but with the
running maximum actually updated, so a later item replaces the pick only when
strictly more informative, and ties keep the first index. -/
def maxInfoPickSpec (infF : ℚ → ℚ → ℚ → ℚ → ℚ) (θ : ℚ)
    (administered : List ℕ) (items : List Item) : Option ℕ :=
  maxInfoPickSpecAux infF θ administered none 0 0 items

/-- Embedding of `mean_squared_error` from sklearn as called by `rmse` (line
162): the mean of squared differences of the paired sequences; sklearn raises
when the lengths differ and when the sequences are empty, modelled by
`none`. -/
def mean_squared_error (actual predicted : List ℚ) : Option ℚ :=
  if actual.length = predicted.length ∧ actual.length ≠ 0 then
    some ((((actual.zip predicted).map (fun q => (q.1 - q.2) ^ 2)).sum) /
      (actual.length : ℚ))
  else none

/-- Embedding of `rmse` (lines 155-162): `math.sqrt` of the mean squared
error. -/
noncomputable def rmse (actual predicted : List ℚ) : Option ℝ :=
  (mean_squared_error actual predicted).map (fun m : ℚ => Real.sqrt (m : ℝ))

/-- Embedding of `np.var` as called by `overlap_rate` (line 172): the
population variance, i.e. the mean of squared deviations from the mean
(`np.var` uses `ddof = 0`). -/
def npVar (xs : List ℚ) : ℚ :=
  ((xs.map (fun x => (x - xs.sum / (xs.length : ℚ)) ^ 2)).sum) /
    (xs.length : ℚ)

/-- Embedding of `overlap_rate` (lines 165-176): the Barrada overlap statistic
over the exposure column of the item matrix. -/
def overlap_rate (items : List Item) (testSize : ℚ) : ℚ :=
  ((items.length : ℚ) / testSize) * npVar (items.map Item.exposure) +
    testSize / (items.length : ℚ)

/-- Embedding of `np.linspace` as used on line 26 for the exposure caps:
`n` evenly spaced values from `a` to `b` inclusive (for `n = 1`, numpy returns
just the start value). -/
def linspace (a b : ℚ) (n : ℕ) : List ℚ :=
  if n ≤ 1 then (List.range n).map (fun _ => a)
  else (List.range n).map (fun i => a + (b - a) * (i : ℚ) / ((n : ℚ) - 1))

/-- Mutable state of one examinee's test: the bank with its exposure column
(shared across examinees of one pass), the examinee's `administered_items` and
`response_vector`, the current `est_theta`, and the pass-level `id_itens` list
the source appends every administration to. -/
structure ExamState where
  items : List Item
  administered : List ℕ
  responses : List Bool
  estTheta : ℚ
  idItens : List ℕ
deriving DecidableEq

/-- Reified randomness for one examinee in one pass: the examinee's true
ability (`np.random.normal` draw made once at simulation start), the initial
estimate (`random.uniform(-5, 5)`), and for each of the `n_itens`
administrations the uniform response draw paired with the `randint` stream
available to the substitution loop. -/
structure ExamPlan where
  trueTheta : ℚ
  initTheta : ℚ
  draws : List (ℚ × List ℕ)
deriving DecidableEq

/-- One iteration of the `for q in np.arange(n_itens)` loop (lines 45-104):
select an item, simulate the response (`tpm(...) >= random.uniform()`), append
to `response_vector`, `administered_items` and `id_itens`, bump the exposure
count, and re-estimate the ability — Dodd's method when the response vector is
uniform, the external optimizer otherwise (on the administered rows of the
updated matrix, as `items[administered_items]`). -/
def simStep (P : Provider) (clusters : List ℕ) (rMax trueTheta : ℚ)
    (st : ExamState) (draw : ℚ × List ℕ) : Option ExamState :=
  match selectItem P.infF st.estTheta st.items clusters st.administered rMax
      draw.2 with
  | none => none
  | some sel =>
    match st.items.get? sel with
    | none => none
    | some it =>
      let acertou : Bool := decide (P.tpmF trueTheta it.a it.b it.c ≥ draw.1)
      let responses' := st.responses ++ [acertou]
      let administered' := st.administered ++ [sel]
      let items' := incExposure st.items sel
      let idItens' := st.idItens ++ [sel]
      if uniformResponses responses' then
        match dodd st.estTheta items' acertou with
        | none => none
        | some θ' => some ⟨items', administered', responses', θ', idItens'⟩
      else
        some ⟨items', administered', responses',
          P.mle st.estTheta responses'
            (administered'.filterMap (fun i => items'.get? i)), idItens'⟩

/-- Run one examinee's full test: fold `simStep` over the per-administration
draws (the source's loop body runs exactly `n_itens` times; a plan's `draws`
list carries one entry per iteration). -/
def runTest (P : Provider) (clusters : List ℕ) (rMax trueTheta : ℚ) :
    ExamState → List (ℚ × List ℕ) → Option ExamState
  | st, [] => some st
  | st, d :: ds =>
    match simStep P clusters rMax trueTheta st d with
    | none => none
    | some st' => runTest P clusters rMax trueTheta st' ds

/-- Per-examinee Simulation Record appended to `localResults` (lines
107-110): true ability, final estimate, the `Id. Itens` list and the cap in
force. -/
structure LocalResult where
  theta : ℚ
  estTheta : ℚ
  idItens : List ℕ
  rMax : ℚ
deriving DecidableEq

/-- Computable core of the per-cap Aggregate Record (lines 117-121): test
length (`Qtd. Itens`), the estimates the RMSE is later taken over, the overlap
statistic, and the cap.  The full record including the real-valued RMSE is
assembled by `simCAT` below. -/
structure AggCore where
  qtdItens : ℕ
  estThetas : List ℚ
  overlap : ℚ
  rMax : ℚ
deriving DecidableEq

/-- Fold of the examinee loop of one cap pass: the exposure-carrying bank and
the pass-level `id_itens` list thread from one examinee to the next (both are
shared mutable state in the source), each examinee starting with fresh
`administered_items`, `response_vector` and initial estimate; the fold also
accumulates the (true ability, final estimate) pairs in order. -/
def runPassExaminees (P : Provider) (clusters : List ℕ) (rMax : ℚ) :
    List Item × List ℕ × List (ℚ × ℚ) → List ExamPlan →
    Option (List Item × List ℕ × List (ℚ × ℚ))
  | acc, [] => some acc
  | acc, p :: ps =>
    match runTest P clusters rMax p.trueTheta
        ⟨acc.1, [], [], p.initTheta, acc.2.1⟩ p.draws with
    | none => none
    | some st =>
      runPassExaminees P clusters rMax
        (st.items, st.idItens, acc.2.2 ++ [(p.trueTheta, st.estTheta)]) ps

/-- One full cap pass: run every examinee, then build the pass outputs.  In
the source each `localResults` entry stores a reference to the SAME per-pass
`id_itens` list object, which keeps growing afterwards; observed at function
return, every record of the pass therefore holds the final pass-level list,
which is how the records are built here.  The Aggregate core records the
end-of-pass overlap statistic over the (never reset) exposure column. -/
def runPass (P : Provider) (clusters : List ℕ) (nItens : ℕ) (rMax : ℚ)
    (items0 : List Item) (plans : List ExamPlan) :
    Option (List Item × List LocalResult × AggCore) :=
  match runPassExaminees P clusters rMax (items0, [], []) plans with
  | none => none
  | some out =>
    some (out.1,
      out.2.2.map (fun o => ⟨o.1, o.2, out.2.1, rMax⟩),
      ⟨nItens, out.2.2.map (fun o => o.2), overlap_rate out.1 (nItens : ℚ),
        rMax⟩)

/-- The `for v, r_max in enumerate(r_maxes)` loop: passes run strictly in
sequence, each pass continuing from the item matrix (and hence the exposure
column) left by the previous pass — the source never resets the exposure
counters.  `localResults` and `globalResults` accumulate across passes. -/
def runPasses (P : Provider) (clusters : List ℕ) (nItens : ℕ) :
    List Item → List (ℚ × List ExamPlan) →
    Option (List Item × List LocalResult × List AggCore)
  | items, [] => some (items, [], [])
  | items, (rMax, plans) :: rest =>
    match runPass P clusters nItens rMax items plans with
    | none => none
    | some out =>
      match runPasses P clusters nItens out.1 rest with
      | none => none
      | some res => some (res.1, out.2.1 ++ res.2.1, out.2.2 :: res.2.2)

/-- Line 21 of the source: append a zero exposure column to the input item
matrix, once, before any pass runs. -/
def itemsInit (itemsIn : List (ℚ × ℚ × ℚ)) : List Item :=
  itemsIn.map (fun t => ⟨t.1, t.2.1, t.2.2, 0⟩)

/-- Computable core of `simCAT`: initialise the exposure column, pair the
`np.linspace(0.1, 1, r_max_interval)` caps with the reified per-pass
randomness, run the passes in order, and return the aggregate cores and the
Simulation Records (the source returns `(globalResults, localResults)`). -/
def simCATcore (P : Provider) (itemsIn : List (ℚ × ℚ × ℚ))
    (clusters : List ℕ) (nItens rMaxInterval : ℕ)
    (passPlans : List (List ExamPlan)) :
    Option (List AggCore × List LocalResult) :=
  match runPasses P clusters nItens (itemsInit itemsIn)
      ((linspace (1/10) 1 rMaxInterval).zip passPlans) with
  | none => none
  | some r => some (r.2.2, r.2.1)

/-- Per-cap Aggregate Record exactly as assembled on lines 117-121, with the
real-valued RMSE field. -/
structure AggRecord where
  qtdItens : ℕ
  rmseVal : Option ℝ
  overlap : ℚ
  rMax : ℚ

/-- Full `simCAT` output: the aggregate cores completed with
`rmse(true_thetas, estimatedThetasForThisR)`.  `trueThetas` is the single
array drawn at simulation start; faithfulness to the source requires each
pass's plans to carry these same true abilities. -/
noncomputable def simCAT (P : Provider) (itemsIn : List (ℚ × ℚ × ℚ))
    (clusters : List ℕ) (nItens rMaxInterval : ℕ) (trueThetas : List ℚ)
    (passPlans : List (List ExamPlan)) :
    Option (List AggRecord × List LocalResult) :=
  (simCATcore P itemsIn clusters nItens rMaxInterval passPlans).map
    (fun r => (r.1.map (fun g =>
      ⟨g.qtdItens, rmse trueThetas g.estThetas, g.overlap, g.rMax⟩), r.2))

/-- Exposure count of the row at index `j`, read off a bank (0 when the index
is out of range; used only to state exposure-monotonicity). -/
def expoAt (items : List Item) (j : ℕ) : ℚ :=
  ((items.get? j).map Item.exposure).getD 0

/-- Concrete IRT information function used in concrete runs: the information
of an item is its discrimination parameter, independent of the ability (a
legitimate instantiation of the external provider, chosen so that the
information values of a bank can be read off its first column). -/
def infA : ℚ → ℚ → ℚ → ℚ → ℚ := fun _ a _ _ => a

/-- Concrete external provider for concrete runs: information as in `infA`, a
response model that always answers correctly (probability 1 is at least any
uniform draw), and an optimizer stub that is never reached because uniform
response vectors are handled by Dodd's method. -/
def Pconc : Provider := ⟨infA, fun _ _ _ _ => 1, fun t _ _ => t⟩

/-- Concrete bank for the exposure-check claim: under `infA`, only item 0 is
informative, so the step-1 pick is item 0, whose exposure count is 0. -/
def itemsC1 : List Item := [⟨1, 0, 0, 0⟩, ⟨0, 0, 0, 0⟩]

/-- Concrete bank for the scan claim: under `infA`, item 0 carries information
5 and item 1 information 1, both positive. -/
def itemsC2 : List Item := [⟨5, 0, 0, 0⟩, ⟨1, 0, 0, 0⟩]

/-- Concrete per-examinee randomness: true ability 0, initial estimate 0, one
administration with response draw 0 and substitution stream `[0]`. -/
def planC : ExamPlan := ⟨0, 0, [(0, [0])]⟩

/-- Concrete input matrix for the counter-reset claim: only item 0 is
informative under `infA`, so every pass administers item 0. -/
def itemsC3In : List (ℚ × ℚ × ℚ) := [(1, 0, 0), (0, 0, 0)]

/-- Concrete second examinee: identical to `planC` except that the
substitution stream makes the exposure-control loop land on item 1. -/
def planB : ExamPlan := ⟨0, 0, [(0, [1])]⟩

/-- Concrete input matrix for the Simulation-Record claim: both items
informative, same cluster. -/
def itemsC4In : List (ℚ × ℚ × ℚ) := [(1, 0, 0), (1, 0, 0)]

/-- Concrete bank whose difficulty column has maximum 3 and minimum -2, for
the Dodd instance of the spec (§8). -/
def items35 : List Item := [⟨1, 3, 0, 0⟩, ⟨1, -2, 0, 0⟩]

/-- C1: the claim says that when the step-1 pick's exposure count is zero (or
the cap ratio allows it) the pick is accepted as-is, substitution happening
only in the complementary case, and that the consulted count is the selected
item's own.  In the source the condition instead GUARDS the substitution
branch, and it reads `items[counter, 3]` with `counter` frozen at the scan
loop's last index.  Concretely: in `itemsC1` the step-1 pick is item 0 with
exposure count 0, yet the selector performs cluster substitution and returns
item 1 instead of accepting the pick. -/
theorem catsim_C1_code :
    scanSel infA 0 [] itemsC1 = some 0
    ∧ expoAt itemsC1 0 = 0
    ∧ selectItem infA 0 itemsC1 [0, 0] [] (1/2) [1] = some 1
    ∧ selectItem infA 0 itemsC1 [0, 0] [] (1/2) [1] ≠ scanSel infA 0 [] itemsC1 := by
  decide

/-- C2: the claim says the step-1 pick has the strictly greatest Fisher
information, first index winning ties.  The source never updates `max_inf`, so
the scan returns the LAST index whose information is positive: on `itemsC2`
(informations 5 and 1) the scan returns item 1 although item 0 is strictly
more informative; the spec-side pick is item 0. -/
theorem catsim_C2_code :
    scanSel infA 0 [] itemsC2 = some 1
    ∧ maxInfoPickSpec infA 0 [] itemsC2 = some 0
    ∧ infA 0 5 0 0 > infA 0 1 0 0
    ∧ scanSel infA 0 [] itemsC2 ≠ maxInfoPickSpec infA 0 [] itemsC2 := by
  decide

/-- C3 counterexample: the claim says every item's exposure counter is zero at
the start of each cap pass, so a pass's Aggregate Record reflects only that
pass's administrations.  In this concrete two-pass run (one examinee, one
administration per pass, always item 0) the first pass ends with exposure
column `[1, 0]`, the second pass of the full run records overlap `5/2` —
computed from the cumulative column `[2, 0]` — whereas the same pass run from
a zeroed column records overlap `1`.  The counters were therefore not reset
between passes. -/
theorem catsim_C3_counterexample :
    (runPass Pconc [0, 0] 1 (1/10) (itemsInit itemsC3In) [planC]).map
        (fun r => r.1.map Item.exposure) = some [1, 0]
    ∧ simCATcore Pconc itemsC3In [0, 0] 1 2 [[planC], [planC]]
        = some ([⟨1, [0], 1, 1/10⟩, ⟨1, [0], 5/2, 1⟩],
                [⟨0, 0, [0], 1/10⟩, ⟨0, 0, [0], 1⟩])
    ∧ (runPass Pconc [0, 0] 1 1 (itemsInit itemsC3In) [planC]).map
        (fun r => r.2.2.overlap) = some 1
    ∧ (5/2 : ℚ) ≠ 1 := by
  norm_num [simCATcore, runPasses, runPass, runPassExaminees, runTest, simStep,
    selectItem, scanSel, scanAux, lastExposure, dodd, uniformResponses,
    incExposure, itemsInit, linspace, overlap_rate, npVar, Pconc, infA, planC,
    itemsC3In, List.range_succ]

/-- C4: the claim says each examinee's Simulation Record holds exactly that
examinee's own ordered administered items (length `n_itens`).  The source
appends every administration of the whole cap pass to one shared `id_itens`
list and stores that same list in every record.  Concretely: with two
examinees and `n_itens = 1`, examinee 0 is administered exactly item 0 (their
`administered_items` is `[0]`), yet both emitted records carry
`Id. Itens = [0, 1]`, which also contains examinee 1's item. -/
theorem catsim_C4_code :
    simCATcore Pconc itemsC4In [0, 0] 1 1 [[planC, planB]]
      = some ([⟨1, [0, 0], 1/2, 1/10⟩],
              [⟨0, 0, [0, 1], 1/10⟩, ⟨0, 0, [0, 1], 1/10⟩])
    ∧ (runTest Pconc [0, 0] (1/10) 0 ⟨itemsInit itemsC4In, [], [], 0, []⟩
        [(0, [0])]).map ExamState.administered = some [0]
    ∧ ([0, 1] : List ℕ) ≠ [0] := by
  norm_num [simCATcore, runPasses, runPass, runPassExaminees, runTest, simStep,
    selectItem, scanSel, scanAux, lastExposure, dodd, uniformResponses,
    incExposure, itemsInit, linspace, overlap_rate, npVar, Pconc, infA, planC,
    planB, itemsC4In, List.range_succ]

/-- C8 counterexample: the claim says the selector returns a well-defined
index via a deterministic fallback when no available item has positive
information.  On a bank whose only item has information 0, the embedded
selector returns no index at all (the Python code dies indexing with `None`):
there is no fallback. -/
theorem catsim_C8_counterexample :
    selectItem infA 0 [⟨0, 0, 0, 0⟩] [0] [] 1 [0] = none := by
  decide

/-- Python `max` over a nonempty list, as folded in `dodd`, is an upper bound
of the accumulator. -/
theorem foldl_max_le_init (l : List ℚ) (acc : ℚ) : acc ≤ l.foldl max acc := by
  induction l generalizing acc with
  | nil => exact le_refl acc
  | cons a t ih => exact le_trans (le_max_left acc a) (ih (max acc a))

/-- Python `max` over a nonempty list is an upper bound of the elements. -/
theorem le_foldl_max (l : List ℚ) (acc : ℚ) {x : ℚ} (hx : x ∈ l) :
    x ≤ l.foldl max acc := by
  induction l generalizing acc with
  | nil => cases hx
  | cons a t ih =>
    rcases List.mem_cons.mp hx with rfl | hx'
    · exact le_trans (le_max_right acc x) (foldl_max_le_init t (max acc x))
    · exact ih (max acc a) hx'

/-- Python `max` over a nonempty list is attained at the accumulator or at an
element. -/
theorem foldl_max_mem (l : List ℚ) (acc : ℚ) :
    l.foldl max acc = acc ∨ l.foldl max acc ∈ l := by
  induction l generalizing acc with
  | nil => exact Or.inl rfl
  | cons a t ih =>
    rcases ih (max acc a) with h | h
    · rcases max_choice acc a with hm | hm
      · exact Or.inl (by rw [List.foldl_cons, h, hm])
      · exact Or.inr (by rw [List.foldl_cons, h, hm]; exact List.mem_cons_self a t)
    · exact Or.inr (List.mem_cons_of_mem a h)

/-- Python `min` over a nonempty list is a lower bound of the accumulator. -/
theorem foldl_min_le_init (l : List ℚ) (acc : ℚ) : l.foldl min acc ≤ acc := by
  induction l generalizing acc with
  | nil => exact le_refl acc
  | cons a t ih => exact le_trans (ih (min acc a)) (min_le_left acc a)

/-- Python `min` over a nonempty list is a lower bound of the elements. -/
theorem foldl_min_le (l : List ℚ) (acc : ℚ) {x : ℚ} (hx : x ∈ l) :
    l.foldl min acc ≤ x := by
  induction l generalizing acc with
  | nil => cases hx
  | cons a t ih =>
    rcases List.mem_cons.mp hx with rfl | hx'
    · exact le_trans (foldl_min_le_init t (min acc x)) (min_le_right acc x)
    · exact ih (min acc a) hx'

/-- Python `min` over a nonempty list is attained at the accumulator or at an
element. -/
theorem foldl_min_mem (l : List ℚ) (acc : ℚ) :
    l.foldl min acc = acc ∨ l.foldl min acc ∈ l := by
  induction l generalizing acc with
  | nil => exact Or.inl rfl
  | cons a t ih =>
    rcases ih (min acc a) with h | h
    · rcases min_choice acc a with hm | hm
      · exact Or.inl (by rw [List.foldl_cons, h, hm])
      · exact Or.inr (by rw [List.foldl_cons, h, hm]; exact List.mem_cons_self a t)
    · exact Or.inr (List.mem_cons_of_mem a h)

/-- C5: for every ability, nonempty bank and response flag, `dodd` returns
`theta + (b_max - theta)/2` on a correct response and
`theta - (theta - b_min)/2` on an incorrect one, where `b_max`/`b_min` are the
maximum/minimum of the difficulty column over ALL bank items; on a bank with
`b_max = 3`, `b_min = -2` and `theta = 0` this gives `3/2` and `-1`. -/
theorem catsim_C5 :
    (∀ (θ : ℚ) (items : List Item), items ≠ [] →
      ∃ bMax bMin : ℚ,
        bMax ∈ items.map Item.b ∧ (∀ x ∈ items.map Item.b, x ≤ bMax) ∧
        bMin ∈ items.map Item.b ∧ (∀ x ∈ items.map Item.b, bMin ≤ x) ∧
        dodd θ items true = some (θ + (bMax - θ) / 2) ∧
        dodd θ items false = some (θ - (θ - bMin) / 2))
    ∧ dodd 0 items35 true = some (3/2)
    ∧ dodd 0 items35 false = some (-1) := by
  refine ⟨?_, ?_, ?_⟩
  · intro θ items h
    rcases hmap : items.map Item.b with _ | ⟨b0, bs⟩
    · exact absurd (List.map_eq_nil_iff.mp hmap) h
    · refine ⟨bs.foldl max b0, bs.foldl min b0, ?_, ?_, ?_, ?_, ?_, ?_⟩
      · rcases foldl_max_mem bs b0 with hm | hm
        · rw [hm]; exact List.mem_cons_self b0 bs
        · exact List.mem_cons_of_mem b0 hm
      · intro x hx
        rcases List.mem_cons.mp hx with rfl | hx'
        · exact foldl_max_le_init bs x
        · exact le_foldl_max bs b0 hx'
      · rcases foldl_min_mem bs b0 with hm | hm
        · rw [hm]; exact List.mem_cons_self b0 bs
        · exact List.mem_cons_of_mem b0 hm
      · intro x hx
        rcases List.mem_cons.mp hx with rfl | hx'
        · exact foldl_min_le_init bs x
        · exact foldl_min_le bs b0 hx'
      · simp [dodd, hmap]
      · simp [dodd, hmap]
  · norm_num [dodd, items35, max_def]
  · norm_num [dodd, items35, min_def]

/-- Witness for C5: the general statement applied to the concrete bank
`items35`. -/
theorem catsim_C5_witness :
    ∃ bMax bMin : ℚ,
      bMax ∈ items35.map Item.b ∧ (∀ x ∈ items35.map Item.b, x ≤ bMax) ∧
      bMin ∈ items35.map Item.b ∧ (∀ x ∈ items35.map Item.b, bMin ≤ x) ∧
      dodd 7 items35 true = some (7 + (bMax - 7) / 2) ∧
      dodd 7 items35 false = some (7 - (7 - bMin) / 2) :=
  catsim_C5.1 7 items35 (by decide)

/-- Any index the scan ever stores in `selected_item` is not yet administered:
the loop's guard requires `counter not in administered_items` before it
overwrites the selection. -/
theorem scanAux_not_mem (infF : ℚ → ℚ → ℚ → ℚ → ℚ) (θ : ℚ)
    (administered : List ℕ) :
    ∀ (items : List Item) (sel : Option ℕ) (maxInf : ℚ) (base j : ℕ),
      (∀ s, sel = some s → s ∉ administered) →
      scanAux infF θ administered sel maxInf base items = some j →
      j ∉ administered := by
  intro items
  induction items with
  | nil =>
    intro sel maxInf base j hsel h
    exact hsel j h
  | cons it rest ih =>
    intro sel maxInf base j hsel h
    rw [scanAux] at h
    split_ifs at h with hc
    · refine ih (some base) maxInf (base + 1) j ?_ h
      intro s hs
      injection hs with hs2
      exact hs2 ▸ hc.1
    · exact ih sel maxInf (base + 1) j hsel h

/-- Whatever branch the selector takes, a returned index was not already
administered: the scan only stores fresh indices, and the substitution loop's
acceptance test contains `random_item not in administered_items`. -/
theorem selectItem_not_mem {infF : ℚ → ℚ → ℚ → ℚ → ℚ} {θ : ℚ}
    {items : List Item} {clusters administered : List ℕ} {rMax : ℚ}
    {subDraws : List ℕ} {j : ℕ}
    (h : selectItem infF θ items clusters administered rMax subDraws = some j) :
    j ∉ administered := by
  simp only [selectItem] at h
  by_cases hemp : items.isEmpty = true
  · rw [if_pos hemp] at h
    simp at h
  · rw [if_neg hemp] at h
    by_cases hcond : lastExposure items = 0 ∨ (lastExposure items ≠ 0 ∧
        (items.length : ℚ) / lastExposure items ≥ rMax)
    · rw [if_pos hcond] at h
      rcases hs : scanSel infF θ administered items with _ | s
      · simp only [hs] at h
        exact Option.noConfusion h
      · simp only [hs] at h
        rcases hcl : clusters.get? s with _ | cl
        · simp only [hcl] at h
          exact Option.noConfusion h
        · simp only [hcl] at h
          have hp := @List.find?_some ℕ
            (fun r => decide (r < items.length ∧
              clusters.get? r = some cl ∧ r ∉ administered)) j subDraws h
          exact (of_decide_eq_true hp).2.2
    · rw [if_neg hcond] at h
      exact scanAux_not_mem infF θ administered items none 0 0 j
        (fun s hs => by cases hs) h

/-- Appending a fresh element preserves distinctness. -/
theorem nodupSnoc {l : List ℕ} {a : ℕ} (h : l.Nodup) (ha : a ∉ l) :
    (l ++ [a]).Nodup := by
  simp [List.nodup_append, h, ha]

/-- Shape of a successful administration step: some item is selected, appended
to the examinee's administered list and the pass-level `id_itens`, and exactly
its exposure counter is bumped. -/
theorem simStep_fields {P : Provider} {clusters : List ℕ} {rMax tT : ℚ}
    {st st' : ExamState} {d : ℚ × List ℕ}
    (h : simStep P clusters rMax tT st d = some st') :
    ∃ sel, selectItem P.infF st.estTheta st.items clusters st.administered rMax
        d.2 = some sel
      ∧ st'.administered = st.administered ++ [sel]
      ∧ st'.items = incExposure st.items sel
      ∧ st'.idItens = st.idItens ++ [sel] := by
  simp only [simStep] at h
  rcases hsel : selectItem P.infF st.estTheta st.items clusters st.administered
      rMax d.2 with _ | sel
  · simp only [hsel] at h
    exact Option.noConfusion h
  · simp only [hsel] at h
    rcases hit : st.items.get? sel with _ | it
    · simp only [hit] at h
      exact Option.noConfusion h
    · simp only [hit] at h
      refine ⟨sel, rfl, ?_⟩
      split_ifs at h with hu
      · rcases hd : dodd st.estTheta (incExposure st.items sel)
            (decide (P.tpmF tT it.a it.b it.c ≥ d.1)) with _ | θ'
        · simp only [hd] at h
          exact Option.noConfusion h
        · simp only [hd] at h
          injection h with h2
          subst h2
          exact ⟨rfl, rfl, rfl⟩
      · injection h with h2
        subst h2
        exact ⟨rfl, rfl, rfl⟩

/-- Running a test preserves distinctness of the administered list. -/
theorem runTest_nodup {P : Provider} {clusters : List ℕ} {rMax tT : ℚ} :
    ∀ (draws : List (ℚ × List ℕ)) (st st' : ExamState),
      runTest P clusters rMax tT st draws = some st' →
      st.administered.Nodup → st'.administered.Nodup := by
  intro draws
  induction draws with
  | nil =>
    intro st st' h hn
    rw [runTest] at h
    injection h with h2
    exact h2 ▸ hn
  | cons d ds ih =>
    intro st st' h hn
    rw [runTest] at h
    rcases hstep : simStep P clusters rMax tT st d with _ | st1
    · rw [hstep] at h; exact absurd h (by simp)
    · rw [hstep] at h
      rcases simStep_fields hstep with ⟨sel, hsel, hadm, _, _⟩
      exact ih st1 st' h (hadm ▸ nodupSnoc hn (selectItem_not_mem hsel))

/-- C6: for any examinee whose test starts with an empty administered list
(and a bank at least as large as the test length), every completed run has a
duplicate-free administered list: each appended index — whether accepted from
the information scan or produced by cluster substitution — was not already a
member. -/
theorem catsim_C6 (P : Provider) (clusters : List ℕ)
    (rMax trueTheta initTheta : ℚ) (items : List Item) (idItens0 : List ℕ)
    (draws : List (ℚ × List ℕ)) (st : ExamState)
    (_hbank : draws.length ≤ items.length)
    (hrun : runTest P clusters rMax trueTheta
      ⟨items, [], [], initTheta, idItens0⟩ draws = some st) :
    st.administered.Nodup :=
  runTest_nodup draws ⟨items, [], [], initTheta, idItens0⟩ st hrun
    List.nodup_nil

/-- Witness for C6: a concrete two-administration run on a two-item bank,
where the first item comes from cluster substitution over the scan's pick and
the second from substitution as well; the resulting administered list `[0, 1]`
is duplicate-free. -/
theorem catsim_C6_witness :
    runTest Pconc [0, 0] (1/10) 0 ⟨itemsInit itemsC4In, [], [], 0, []⟩
        [(0, [0]), (0, [1])]
      = some ⟨[⟨1, 0, 0, 1⟩, ⟨1, 0, 0, 1⟩], [0, 1], [true, true], 0, [0, 1]⟩
    ∧ ([0, 1] : List ℕ).Nodup := by
  have hrun : runTest Pconc [0, 0] (1/10) 0
      ⟨itemsInit itemsC4In, [], [], 0, []⟩ [(0, [0]), (0, [1])]
      = some ⟨[⟨1, 0, 0, 1⟩, ⟨1, 0, 0, 1⟩], [0, 1], [true, true], 0, [0, 1]⟩ := by
    norm_num [runTest, simStep, selectItem, scanSel, scanAux, lastExposure,
      dodd, uniformResponses, incExposure, itemsInit, itemsC4In, Pconc, infA]
  exact ⟨hrun, catsim_C6 Pconc [0, 0] (1/10) 0 0 (itemsInit itemsC4In) []
    [(0, [0]), (0, [1])] _ (by decide) hrun⟩

/-- When no not-yet-administered item's information exceeds the running
maximum, the scan returns its accumulator unchanged: no assignment to
`selected_item` ever fires. -/
theorem scanAux_eq_of_le (infF : ℚ → ℚ → ℚ → ℚ → ℚ) (θ : ℚ)
    (administered : List ℕ) :
    ∀ (items : List Item) (sel : Option ℕ) (maxInf : ℚ) (base : ℕ),
      (∀ k it, items.get? k = some it → (base + k) ∉ administered →
        infF θ it.a it.b it.c ≤ maxInf) →
      scanAux infF θ administered sel maxInf base items = sel := by
  intro items
  induction items with
  | nil => intro sel maxInf base _; rw [scanAux]
  | cons it rest ih =>
    intro sel maxInf base h
    rw [scanAux]
    have hcond : ¬(base ∉ administered ∧ infF θ it.a it.b it.c > maxInf) := by
      rintro ⟨h1, h2⟩
      exact absurd h2 (not_lt.mpr (h 0 it rfl (by simpa using h1)))
    rw [if_neg hcond]
    refine ih sel maxInf (base + 1) ?_
    intro k it2 hk hmem
    refine h (k + 1) it2 (by simpa using hk) ?_
    have heq : base + (k + 1) = base + 1 + k := by omega
    rw [heq]
    exact hmem

/-- C8 (amended): whenever no not-yet-administered item has Fisher information
strictly greater than zero, the step-1 pick stays `None` and the selector does
NOT return an item index — the embedded selector yields `none` (the source
would die indexing `clusters` or `items` with `None`); no fallback rule
exists. -/
theorem catsim_C8_amended (infF : ℚ → ℚ → ℚ → ℚ → ℚ) (θ : ℚ)
    (items : List Item) (clusters administered : List ℕ) (rMax : ℚ)
    (subDraws : List ℕ)
    (h : ∀ i, (hi : i < items.length) → i ∉ administered →
      infF θ (items.get ⟨i, hi⟩).a (items.get ⟨i, hi⟩).b
        (items.get ⟨i, hi⟩).c ≤ 0) :
    selectItem infF θ items clusters administered rMax subDraws = none := by
  have hscan : scanSel infF θ administered items = none := by
    refine scanAux_eq_of_le infF θ administered items none 0 0 ?_
    intro k it hk hmem
    rcases List.get?_eq_some.mp hk with ⟨hlt, hget⟩
    have hle := h k hlt (by simpa using hmem)
    rw [hget] at hle
    exact hle
  simp only [selectItem]
  by_cases hemp : items.isEmpty = true
  · rw [if_pos hemp]
  · rw [if_neg hemp]
    by_cases hcond : lastExposure items = 0 ∨ (lastExposure items ≠ 0 ∧
        (items.length : ℚ) / lastExposure items ≥ rMax)
    · rw [if_pos hcond, hscan]
    · rw [if_neg hcond]
      exact hscan

/-- Witness for C8 (amended): a two-item bank whose items both carry
information 0, at cap 1/2 with substitution stream `[0, 0]`; the selector
returns no index. -/
theorem catsim_C8_witness :
    selectItem infA 0 [⟨0, 0, 0, 0⟩, ⟨0, 0, 0, 0⟩] [0, 0] [] (1/2) [0, 0]
      = none :=
  catsim_C8_amended infA 0 [⟨0, 0, 0, 0⟩, ⟨0, 0, 0, 0⟩] [0, 0] [] (1/2) [0, 0]
    (by decide)

/-- C9: `rmse` fails (returns `none`, sklearn raising) whenever the sequences
have different lengths, and on equal-length nonempty sequences returns the
population root-mean-squared error `sqrt(sum((a_i - p_i)^2)/N)`; in particular
`rmse [0,0] [0,0] = 0` and `rmse [1] [-1] = 2`. -/
theorem catsim_C9 :
    (∀ actual predicted : List ℚ, actual.length ≠ predicted.length →
      rmse actual predicted = none)
    ∧ (∀ actual predicted : List ℚ, actual.length = predicted.length →
      actual ≠ [] →
      rmse actual predicted = some (Real.sqrt
        ((((actual.zip predicted).map (fun q => (q.1 - q.2) ^ 2)).sum /
          (actual.length : ℚ) : ℚ) : ℝ)))
    ∧ rmse [0, 0] [0, 0] = some 0
    ∧ rmse [1] [-1] = some 2 := by
  refine ⟨?_, ?_, ?_, ?_⟩
  · intro a p h
    simp [rmse, mean_squared_error, h]
  · intro a p h hne
    have hlen : a.length ≠ 0 := fun h0 => hne (List.length_eq_zero.mp h0)
    have hm : mean_squared_error a p
        = some (((a.zip p).map (fun q => (q.1 - q.2) ^ 2)).sum /
          (a.length : ℚ)) := by
      rw [mean_squared_error, if_pos ⟨h, hlen⟩]
    rw [rmse, hm, Option.map_some']
  · have hm : mean_squared_error [0, 0] [0, 0] = some 0 := by
      norm_num [mean_squared_error]
    simp [rmse, hm]
  · have hm : mean_squared_error [1] [-1] = some 4 := by
      norm_num [mean_squared_error]
    rw [rmse, hm]
    have h4 : ((4 : ℚ) : ℝ) = (2 : ℝ) ^ 2 := by norm_num
    simp only [Option.map_some', h4, Real.sqrt_sq (by norm_num : (0:ℝ) ≤ 2)]

/-- Witness for C9: the length-mismatch clause applied to concrete sequences
of lengths 1 and 2, and the general formula applied to a concrete pair. -/
theorem catsim_C9_witness :
    rmse [0] [1, 2] = none
    ∧ rmse [3, 5] [1, 2] = some (Real.sqrt
        (((([(3 : ℚ), 5].zip [1, 2]).map (fun q => (q.1 - q.2) ^ 2)).sum /
          (([(3 : ℚ), 5].length : ℚ)) : ℚ) : ℝ)) :=
  ⟨catsim_C9.1 [0] [1, 2] (by decide),
   catsim_C9.2.1 [3, 5] [1, 2] (by decide) (by decide)⟩

/-- Expansion of the sum of squared deviations used by `np.var`. -/
theorem sum_sub_sq (l : List ℚ) (μ : ℚ) :
    (l.map (fun x => (x - μ) ^ 2)).sum
      = (l.map (fun x => x ^ 2)).sum - 2 * μ * l.sum + l.length * μ ^ 2 := by
  induction l with
  | nil => simp
  | cons a t ih =>
    simp only [List.map_cons, List.sum_cons, List.length_cons, ih]
    push_cast
    ring

/-- Population variance in its mean-of-squares-minus-square-of-mean form. -/
theorem npVar_alt (l : List ℚ) (h : l ≠ []) :
    npVar l = (l.map (fun x => x ^ 2)).sum / (l.length : ℚ)
      - (l.sum / (l.length : ℚ)) ^ 2 := by
  have hn : (l.length : ℚ) ≠ 0 :=
    Nat.cast_ne_zero.mpr (fun h0 => h (List.length_eq_zero.mp h0))
  rw [npVar, sum_sub_sq]
  field_simp
  ring

/-- Sum of a constant list. -/
theorem sum_const (l : List ℚ) (c : ℚ) (h : ∀ x ∈ l, x = c) :
    l.sum = l.length * c := by
  induction l with
  | nil => simp
  | cons a t ih =>
    have ha : a = c := h a (List.mem_cons_self a t)
    have ht := ih (fun x hx => h x (List.mem_cons_of_mem a hx))
    simp only [List.sum_cons, List.length_cons, ht, ha]
    push_cast
    ring

/-- Population variance of a constant column vanishes. -/
theorem npVar_const (l : List ℚ) (c : ℚ) (h : ∀ x ∈ l, x = c) :
    npVar l = 0 := by
  by_cases hne : l = []
  · subst hne
    simp [npVar]
  · have hn : (l.length : ℚ) ≠ 0 :=
      Nat.cast_ne_zero.mpr (fun h0 => hne (List.length_eq_zero.mp h0))
    have hμ : l.sum / (l.length : ℚ) = c := by
      rw [sum_const l c h]
      field_simp
    have hz : ∀ y ∈ l.map (fun x => (x - l.sum / (l.length : ℚ)) ^ 2), y = 0 := by
      intro y hy
      rcases List.mem_map.mp hy with ⟨x, hx, rfl⟩
      rw [hμ, h x hx]
      ring
    rw [npVar, sum_const _ 0 hz]
    simp

/-- C7: `overlap_rate` returns exactly `(N/Q)·Var + Q/N` with `Var` the
population variance of the exposure column (equivalently, mean of squares
minus square of the mean), and on a bank of 10 items with equal exposure
counts and test length 5 it returns `1/2`. -/
theorem catsim_C7 :
    (∀ (items : List Item) (Q : ℚ), items ≠ [] → 0 < Q →
      overlap_rate items Q
        = ((items.length : ℚ) / Q) * npVar (items.map Item.exposure)
            + Q / (items.length : ℚ)
      ∧ npVar (items.map Item.exposure)
        = ((items.map Item.exposure).map (fun x => x ^ 2)).sum /
              (((items.map Item.exposure).length : ℚ))
            - ((items.map Item.exposure).sum /
              ((items.map Item.exposure).length : ℚ)) ^ 2)
    ∧ (∀ (c : ℚ) (items : List Item), items.length = 10 →
        (∀ it ∈ items, it.exposure = c) → overlap_rate items 5 = 1/2) := by
  constructor
  · intro items Q hne _hQ
    refine ⟨rfl, npVar_alt _ ?_⟩
    intro h0
    exact hne (List.map_eq_nil_iff.mp h0)
  · intro c items hlen hexpo
    have hvar : npVar (items.map Item.exposure) = 0 := by
      refine npVar_const _ c ?_
      intro x hx
      rcases List.mem_map.mp hx with ⟨it, hit, rfl⟩
      exact hexpo it hit
    rw [overlap_rate, hvar, hlen]
    norm_num

/-- Witness for C7: the formula applied to a one-item bank with exposure 2 at
test length 1, and the equal-counts instance at counts all 3. -/
theorem catsim_C7_witness :
    (overlap_rate [(⟨0, 0, 0, 2⟩ : Item)] 1
        = ((([(⟨0, 0, 0, 2⟩ : Item)].length : ℚ)) / 1) *
            npVar ([(⟨0, 0, 0, 2⟩ : Item)].map Item.exposure)
          + 1 / (([(⟨0, 0, 0, 2⟩ : Item)].length : ℚ)))
    ∧ overlap_rate (List.replicate 10 (⟨0, 0, 0, 3⟩ : Item)) 5 = 1/2 :=
  ⟨(catsim_C7.1 [(⟨0, 0, 0, 2⟩ : Item)] 1 (by decide) (by decide)).1,
   catsim_C7.2 3 (List.replicate 10 (⟨0, 0, 0, 3⟩ : Item)) (by simp)
     (by decide)⟩

/-- Sum of squared deviations vanishes exactly when every element equals the
reference point. -/
theorem sum_sq_zero_iff (l : List ℚ) (μ : ℚ) :
    (l.map (fun x => (x - μ) ^ 2)).sum = 0 ↔ ∀ x ∈ l, x = μ := by
  induction l with
  | nil => simp
  | cons a t ih =>
    simp only [List.map_cons, List.sum_cons, List.mem_cons]
    constructor
    · intro h
      have h1 : 0 ≤ (a - μ) ^ 2 := sq_nonneg _
      have h2 : 0 ≤ (t.map (fun x => (x - μ) ^ 2)).sum := by
        refine List.sum_nonneg ?_
        intro y hy
        rcases List.mem_map.mp hy with ⟨x, _, rfl⟩
        exact sq_nonneg _
      have ha : (a - μ) ^ 2 = 0 := by linarith
      have hS : (t.map (fun x => (x - μ) ^ 2)).sum = 0 := by linarith
      have ha2 : a = μ := by
        have := sq_eq_zero_iff.mp ha
        linarith
      rintro x (rfl | hx)
      · exact ha2
      · exact ih.mp hS x hx
    · intro h
      have ha : a = μ := h a (Or.inl rfl)
      have hS : (t.map (fun x => (x - μ) ^ 2)).sum = 0 :=
        ih.mpr (fun x hx => h x (Or.inr hx))
      rw [hS, ha]
      ring

/-- Population variance is nonnegative. -/
theorem npVar_nonneg (l : List ℚ) : 0 ≤ npVar l := by
  apply div_nonneg
  · refine List.sum_nonneg ?_
    intro y hy
    rcases List.mem_map.mp hy with ⟨x, _, rfl⟩
    exact sq_nonneg _
  · exact Nat.cast_nonneg _

/-- Population variance of a nonempty column vanishes exactly when the column
is constant. -/
theorem npVar_eq_zero_iff (l : List ℚ) (h : l ≠ []) :
    npVar l = 0 ↔ ∀ x y, x ∈ l → y ∈ l → x = y := by
  have hn : (l.length : ℚ) ≠ 0 :=
    Nat.cast_ne_zero.mpr (fun h0 => h (List.length_eq_zero.mp h0))
  rw [npVar, div_eq_zero_iff]
  constructor
  · rintro (hS | hbad)
    · intro x y hx hy
      have hall := (sum_sq_zero_iff l _).mp hS
      rw [hall x hx, hall y hy]
    · exact absurd hbad hn
  · intro hpair
    left
    rcases List.exists_cons_of_ne_nil h with ⟨a, t, rfl⟩
    have hall : ∀ x ∈ a :: t, x = a :=
      fun x hx => hpair x a hx (List.mem_cons_self a t)
    have hμ : (a :: t).sum / (((a :: t).length : ℕ) : ℚ) = a := by
      rw [sum_const (a :: t) a hall]
      field_simp
    refine (sum_sq_zero_iff _ _).mpr ?_
    intro x hx
    rw [hμ]
    exact hall x hx

/-- C10: for a nonempty bank, positive test length and nonnegative exposure
column, the overlap statistic is at least the random-selection baseline `Q/N`,
with equality exactly when all exposure counts coincide. -/
theorem catsim_C10 (items : List Item) (Q : ℚ) (hne : items ≠ [])
    (hQ : 0 < Q) (_hpos : ∀ it ∈ items, 0 ≤ it.exposure) :
    Q / (items.length : ℚ) ≤ overlap_rate items Q
    ∧ (overlap_rate items Q = Q / (items.length : ℚ) ↔
        ∀ it1 ∈ items, ∀ it2 ∈ items, it1.exposure = it2.exposure) := by
  have hmapne : items.map Item.exposure ≠ [] :=
    fun h0 => hne (List.map_eq_nil_iff.mp h0)
  have hn : (0 : ℚ) < (items.length : ℚ) := by
    exact_mod_cast List.length_pos.mpr hne
  have hvar := npVar_nonneg (items.map Item.exposure)
  have hcoef : (0 : ℚ) < (items.length : ℚ) / Q := div_pos hn hQ
  constructor
  · rw [overlap_rate]
    have hprod : 0 ≤ ((items.length : ℚ) / Q) *
        npVar (items.map Item.exposure) :=
      mul_nonneg (le_of_lt hcoef) hvar
    linarith
  · rw [overlap_rate]
    constructor
    · intro heq
      have hz : ((items.length : ℚ) / Q) * npVar (items.map Item.exposure)
          = 0 := by linarith
      have hv0 : npVar (items.map Item.exposure) = 0 := by
        rcases mul_eq_zero.mp hz with hc | hv
        · exact absurd hc (ne_of_gt hcoef)
        · exact hv
      intro it1 h1 it2 h2
      exact (npVar_eq_zero_iff _ hmapne).mp hv0 it1.exposure it2.exposure
        (List.mem_map_of_mem _ h1) (List.mem_map_of_mem _ h2)
    · intro hpair
      have hv0 : npVar (items.map Item.exposure) = 0 := by
        refine (npVar_eq_zero_iff _ hmapne).mpr ?_
        intro x y hx hy
        rcases List.mem_map.mp hx with ⟨i1, hi1, rfl⟩
        rcases List.mem_map.mp hy with ⟨i2, hi2, rfl⟩
        exact hpair i1 hi1 i2 hi2
      rw [hv0, mul_zero, zero_add]

/-- Witness for C10: the bound and the equality case at a concrete two-item
bank with equal counts and test length 1. -/
theorem catsim_C10_witness :
    (1 : ℚ) / (([(⟨0, 0, 0, 1⟩ : Item), ⟨0, 0, 0, 1⟩].length : ℚ))
        ≤ overlap_rate [(⟨0, 0, 0, 1⟩ : Item), ⟨0, 0, 0, 1⟩] 1
    ∧ (overlap_rate [(⟨0, 0, 0, 1⟩ : Item), ⟨0, 0, 0, 1⟩] 1
        = 1 / (([(⟨0, 0, 0, 1⟩ : Item), ⟨0, 0, 0, 1⟩].length : ℚ)) ↔
        ∀ it1 ∈ [(⟨0, 0, 0, 1⟩ : Item), ⟨0, 0, 0, 1⟩],
          ∀ it2 ∈ [(⟨0, 0, 0, 1⟩ : Item), ⟨0, 0, 0, 1⟩],
            it1.exposure = it2.exposure) :=
  catsim_C10 [(⟨0, 0, 0, 1⟩ : Item), ⟨0, 0, 0, 1⟩] 1 (by decide) (by decide)
    (by decide)

/-- Bumping an out-of-range index leaves the bank unchanged. -/
theorem incExposure_of_get?_none :
    ∀ (items : List Item) (sel : ℕ), items.get? sel = none →
      incExposure items sel = items := by
  intro items
  induction items with
  | nil => intro sel _; rw [incExposure]
  | cons a t ih =>
    intro sel h
    cases sel with
    | zero => simp [List.get?] at h
    | succ n =>
      simp only [List.get?] at h
      rw [incExposure, ih n h]

/-- Reading back the bumped row: exactly the selected row's exposure grew by
one. -/
theorem get?_incExposure_self :
    ∀ (items : List Item) (sel : ℕ) (it : Item), items.get? sel = some it →
      (incExposure items sel).get? sel
        = some ⟨it.a, it.b, it.c, it.exposure + 1⟩ := by
  intro items
  induction items with
  | nil => intro sel it h; simp [List.get?] at h
  | cons a t ih =>
    intro sel it h
    cases sel with
    | zero =>
      simp only [List.get?, Option.some.injEq] at h
      subst h
      rw [incExposure]
      rfl
    | succ n =>
      simp only [List.get?] at h
      rw [incExposure]
      simpa [List.get?] using ih n it h

/-- Every other row is untouched by the bump. -/
theorem get?_incExposure_other :
    ∀ (items : List Item) (sel j : ℕ), j ≠ sel →
      (incExposure items sel).get? j = items.get? j := by
  intro items
  induction items with
  | nil => intro sel j _; rw [incExposure]
  | cons a t ih =>
    intro sel j hne
    cases sel with
    | zero =>
      cases j with
      | zero => exact absurd rfl hne
      | succ m => rw [incExposure]; rfl
    | succ n =>
      cases j with
      | zero => rw [incExposure]; rfl
      | succ m =>
        rw [incExposure]
        simpa [List.get?] using ih n m (fun h2 => hne (congrArg Nat.succ h2))

/-- The exposure column appended on line 21 is identically zero. -/
theorem itemsInit_exposure (itemsIn : List (ℚ × ℚ × ℚ)) :
    (itemsInit itemsIn).map Item.exposure
      = List.replicate itemsIn.length 0 := by
  induction itemsIn with
  | nil => rfl
  | cons a t ih =>
    simp only [itemsInit, List.map_cons, List.length_cons,
      List.replicate_succ] at ih ⊢
    rw [ih]

/-- One bump never decreases any exposure count. -/
theorem expoAt_incExposure_le (items : List Item) (sel j : ℕ) :
    expoAt items j ≤ expoAt (incExposure items sel) j := by
  by_cases h : j = sel
  · subst h
    rcases hit : items.get? j with _ | it
    · rw [incExposure_of_get?_none items j hit]
    · rw [expoAt, expoAt, hit, get?_incExposure_self items j it hit]
      simp only [Option.map_some', Option.getD_some]
      linarith
  · rw [expoAt, expoAt, get?_incExposure_other items sel j h]

/-- Exposure counts never decrease along one examinee's test. -/
theorem runTest_expo_mono {P : Provider} {clusters : List ℕ} {rMax tT : ℚ} :
    ∀ (draws : List (ℚ × List ℕ)) (st st' : ExamState),
      runTest P clusters rMax tT st draws = some st' →
      ∀ j, expoAt st.items j ≤ expoAt st'.items j := by
  intro draws
  induction draws with
  | nil =>
    intro st st' h j
    rw [runTest] at h
    injection h with h2
    subst h2
    exact le_rfl
  | cons d ds ih =>
    intro st st' h j
    rw [runTest] at h
    rcases hstep : simStep P clusters rMax tT st d with _ | st1
    · rw [hstep] at h; exact Option.noConfusion h
    · rw [hstep] at h
      rcases simStep_fields hstep with ⟨sel, _, _, hitems, _⟩
      calc expoAt st.items j
          ≤ expoAt (incExposure st.items sel) j :=
            expoAt_incExposure_le _ _ _
        _ = expoAt st1.items j := by rw [hitems]
        _ ≤ expoAt st'.items j := ih st1 st' h j

/-- Exposure counts never decrease across the examinees of one pass. -/
theorem runPassExaminees_expo_mono {P : Provider} {clusters : List ℕ}
    {rMax : ℚ} :
    ∀ (plans : List ExamPlan) (acc out : List Item × List ℕ × List (ℚ × ℚ)),
      runPassExaminees P clusters rMax acc plans = some out →
      ∀ j, expoAt acc.1 j ≤ expoAt out.1 j := by
  intro plans
  induction plans with
  | nil =>
    intro acc out h j
    rw [runPassExaminees] at h
    injection h with h2
    subst h2
    exact le_rfl
  | cons p ps ih =>
    intro acc out h j
    obtain ⟨items0, id0, outs0⟩ := acc
    rw [runPassExaminees] at h
    rcases hrt : runTest P clusters rMax p.trueTheta
        ⟨items0, [], [], p.initTheta, id0⟩ p.draws with _ | st
    · rw [hrt] at h; exact Option.noConfusion h
    · rw [hrt] at h
      have h1 := runTest_expo_mono p.draws _ st hrt j
      have h2 := ih (st.items, st.idItens,
        outs0 ++ [(p.trueTheta, st.estTheta)]) out h j
      exact le_trans h1 h2

/-- Exposure counts never decrease across one full pass. -/
theorem runPass_expo_mono {P : Provider} {clusters : List ℕ} {nItens : ℕ}
    {rMax : ℚ} {items0 : List Item} {plans : List ExamPlan}
    {out : List Item × List LocalResult × AggCore}
    (h : runPass P clusters nItens rMax items0 plans = some out) :
    ∀ j, expoAt items0 j ≤ expoAt out.1 j := by
  intro j
  rw [runPass] at h
  rcases hpe : runPassExaminees P clusters rMax (items0, [], []) plans
      with _ | r
  · rw [hpe] at h; exact Option.noConfusion h
  · rw [hpe] at h
    have hm := runPassExaminees_expo_mono plans (items0, [], []) r hpe j
    injection h with h2
    rw [← h2]
    exact hm

/-- The pass after a successful pass continues from the items (and counters)
the pass left behind: there is no reset in between. -/
theorem runPasses_cons {P : Provider} {clusters : List ℕ} {nItens : ℕ}
    {rMax : ℚ} {items : List Item} {plans : List ExamPlan}
    {out : List Item × List LocalResult × AggCore}
    {rest : List (ℚ × List ExamPlan)}
    (h : runPass P clusters nItens rMax items plans = some out) :
    runPasses P clusters nItens items ((rMax, plans) :: rest)
      = (runPasses P clusters nItens out.1 rest).map
          (fun r => (r.1, out.2.1 ++ r.2.1, out.2.2 :: r.2.2)) := by
  rw [runPasses, h]
  dsimp only
  rcases hrec : runPasses P clusters nItens out.1 rest with _ | r
  · rfl
  · rfl

/-- C3 (amended): the exposure counters start at zero once — when `simCAT`
appends the zero column before the first pass; each administration bumps
exactly the administered item's counter by one; counters never decrease within
a pass; and the run NEVER resets them between passes — pass `v+1` continues
from the item matrix pass `v` left, so the counts entering a pass's Aggregate
Record are the cumulative administrations of all passes so far. -/
theorem catsim_C3_amended :
    (∀ itemsIn : List (ℚ × ℚ × ℚ),
      (itemsInit itemsIn).map Item.exposure
        = List.replicate itemsIn.length 0)
    ∧ (∀ (items : List Item) (sel : ℕ) (it : Item),
        items.get? sel = some it →
        (incExposure items sel).get? sel
          = some ⟨it.a, it.b, it.c, it.exposure + 1⟩)
    ∧ (∀ (items : List Item) (sel j : ℕ), j ≠ sel →
        (incExposure items sel).get? j = items.get? j)
    ∧ (∀ (P : Provider) (clusters : List ℕ) (nItens : ℕ) (rMax : ℚ)
        (items : List Item) (plans : List ExamPlan)
        (out : List Item × List LocalResult × AggCore)
        (rest : List (ℚ × List ExamPlan)),
        runPass P clusters nItens rMax items plans = some out →
        runPasses P clusters nItens items ((rMax, plans) :: rest)
          = (runPasses P clusters nItens out.1 rest).map
              (fun r => (r.1, out.2.1 ++ r.2.1, out.2.2 :: r.2.2)))
    ∧ (∀ (P : Provider) (clusters : List ℕ) (nItens : ℕ) (rMax : ℚ)
        (items : List Item) (plans : List ExamPlan)
        (out : List Item × List LocalResult × AggCore),
        runPass P clusters nItens rMax items plans = some out →
        ∀ j, expoAt items j ≤ expoAt out.1 j) :=
  ⟨itemsInit_exposure, get?_incExposure_self, get?_incExposure_other,
   fun _ _ _ _ _ _ _ _ h => runPasses_cons h,
   fun _ _ _ _ _ _ _ h => runPass_expo_mono h⟩

/-- Witness for C3 (amended): each clause instantiated at concrete inputs —
the zero column of the concrete bank, a concrete bump, an untouched
neighbour, and the concrete first pass of the C3 run feeding its end-state
into the next pass with counters intact. -/
theorem catsim_C3_witness :
    (itemsInit itemsC3In).map Item.exposure = List.replicate 2 0
    ∧ (incExposure [(⟨0, 0, 0, 0⟩ : Item)] 0).get? 0 = some ⟨0, 0, 0, 0 + 1⟩
    ∧ (incExposure [(⟨0, 0, 0, 0⟩ : Item)] 0).get? 1
        = ([(⟨0, 0, 0, 0⟩ : Item)]).get? 1
    ∧ runPasses Pconc [0, 0] 1 (itemsInit itemsC3In) [(1/10, [planC])]
        = (runPasses Pconc [0, 0] 1 [⟨1, 0, 0, 1⟩, ⟨0, 0, 0, 0⟩] []).map
            (fun r => (r.1, [(⟨0, 0, [0], 1/10⟩ : LocalResult)] ++ r.2.1,
              (⟨1, [0], 1, 1/10⟩ : AggCore) :: r.2.2))
    ∧ expoAt (itemsInit itemsC3In) 0 ≤ expoAt [⟨1, 0, 0, 1⟩, ⟨0, 0, 0, 0⟩] 0 := by
  have hP1 : runPass Pconc [0, 0] 1 (1/10) (itemsInit itemsC3In) [planC]
      = some ([⟨1, 0, 0, 1⟩, ⟨0, 0, 0, 0⟩],
          [(⟨0, 0, [0], 1/10⟩ : LocalResult)],
          (⟨1, [0], 1, 1/10⟩ : AggCore)) := by
    norm_num [runPass, runPassExaminees, runTest, simStep, selectItem,
      scanSel, scanAux, lastExposure, dodd, uniformResponses, incExposure,
      itemsInit, overlap_rate, npVar, Pconc, infA, planC, itemsC3In]
  exact ⟨catsim_C3_amended.1 itemsC3In,
    catsim_C3_amended.2.1 [(⟨0, 0, 0, 0⟩ : Item)] 0 ⟨0, 0, 0, 0⟩ (by decide),
    catsim_C3_amended.2.2.1 [(⟨0, 0, 0, 0⟩ : Item)] 0 1 (by decide),
    catsim_C3_amended.2.2.2.1 Pconc [0, 0] 1 (1/10) (itemsInit itemsC3In)
      [planC] _ [] hP1,
    catsim_C3_amended.2.2.2.2 Pconc [0, 0] 1 (1/10) (itemsInit itemsC3In)
      [planC] _ hP1 0⟩

end CatSim
